import Mathlib

/-!
Shallow embedding of `src/backend/controllers/material_controller.py`
(function `generate_material_image`).

The handler's external collaborators — the project lookup, the AI
synthesis capability (`AIService.generate_image`), the file/storage
capability (`FileService.save_material_image`, `FileService.get_file_url`),
the per-file `FileStorage.save` writes, and the database session commit —
are not in `src/`; they are modelled as oracle fields of a `World`
record, each returning `Except String α` so that raised exceptions are
explicit.  The handler is embedded as a pure function returning the
`Response` together with a trace of the observable effects it performed
(directory creation, file writes, the synthesis invocation, persistence
calls, commit / rollback, directory removal).

Werkzeug's `secure_filename` is embedded faithfully for ASCII inputs
(the NFKD-normalisation step, which is the identity on ASCII text, is
modelled as dropping non-ASCII code points, exactly what the subsequent
`encode("ascii", "ignore")` does).
-/

/-- One uploaded file of a multipart request: the client-declared file name
and the raw bytes (modelled as a `String`).  A Werkzeug `FileStorage` is
falsy exactly when its `filename` is empty, which is how the controller
tests presence (`if ref_file and ref_file.filename`,
`if not extra or not extra.filename`). -/
structure UploadedFile where
  filename : String
  content : String
deriving DecidableEq, Repr

/-- The two request shapes accepted by the endpoint.  `json`: body is a JSON
object whose optional `prompt` field is read with default `''`; no files are
possible.  `form`: multipart form with optional `prompt` field, optional
`ref_image` file and a (possibly empty) list of `extra_images` files. -/
inductive Req where
  | json (promptField : Option String)
  | form (promptField : Option String) (ref_image : Option UploadedFile)
      (extra_images : List UploadedFile)
deriving DecidableEq, Repr

/-- Modelled from the spec: the response helpers `success_response`,
`error_response`, `not_found` and `bad_request` live in `utils`, which is
not under `src/`.  Per the spec, error responses carry a machine-readable
code and message and a status of 400 (missing prompt), 404 (project not
found) or 503 (service failure). -/
inductive Response where
  | success (image_url relative_path : String)
  | not_found_resp (resource : String)
  | bad_request_resp (message : String)
  | error_resp (code message : String) (status : Nat)
deriving DecidableEq, Repr

/-- HTTP status of a response. -/
def Response.status : Response → Nat
  | .success _ _ => 200
  | .not_found_resp _ => 404
  | .bad_request_resp _ => 400
  | .error_resp _ _ s => s

/-- Observable effects of one handler run, in the order they occur. -/
inductive Event where
  | mkdtemp (dir : String)
  | fileSave (path content : String)
  | genImage (prompt : String) (ref_image_path : Option String)
      (aspect resolution : String) (additional_ref_images : Option (List String))
  | saveMaterial (image project_id : String)
  | getUrl (project_id category filename : String)
  | commit
  | rollback
  | rmtree (dir : String)
deriving DecidableEq, Repr

/-- Ambient application configuration (`current_app.config`). -/
structure Config where
  google_api_key : String
  google_api_base : String
  upload_folder : String
  default_aspect : String
  default_resolution : String

/-- The external collaborators of the handler, as oracles.  `tempDirName`
is the fresh directory name produced by `tempfile.mkdtemp`; `save` is the
`FileStorage.save` write (indexed by target path and bytes);
`generate_image`, `save_material_image`, `get_file_url` and `commit` are
the AI-service, storage and database calls.  An `Except.error e` models
that call raising an exception whose `str` is `e`. -/
structure World where
  projectExists : Bool
  tempDirName : String
  save : String → String → Except String Unit
  generate_image : String → Option String → String → String →
      Option (List String) → Except String (Option String)
  save_material_image : String → String → Except String String
  get_file_url : String → String → String → Except String String
  commit : Except String Unit

/-- Python whitespace for ASCII text, as used by `str.strip()` and
`str.split()`. -/
def pyWs (c : Char) : Bool :=
  c = ' ' || c = '\t' || c = '\n' || c = '\r' || c = '\x0B' || c = '\x0C'

/-- Embedding of Python `str.strip()` on ASCII text. -/
def pyStrip (s : String) : String :=
  String.mk (((s.data.dropWhile pyWs).reverse.dropWhile pyWs).reverse)

/-- Characters kept by Werkzeug's `_filename_ascii_strip_re` substitution:
`[A-Za-z0-9_.-]`. -/
def allowedChar (c : Char) : Bool :=
  c.isAlpha || c.isDigit || c = '_' || c = '.' || c = '-'

/-- Characters removed from both ends by `.strip("._")`. -/
def stripChar (c : Char) : Bool :=
  c = '.' || c = '_'

/-- Split a character list at every character satisfying `p`, keeping empty
chunks (the behaviour of splitting on every single separator occurrence). -/
def splitByP (p : Char → Bool) : List Char → List (List Char)
  | [] => [[]]
  | c :: rest =>
    match splitByP p rest with
    | [] => [[]]
    | q :: qs => if p c then [] :: q :: qs else (c :: q) :: qs

/-- Drop the characters satisfying `p` from both ends of a list (the
behaviour of Python's `str.strip(chars)`). -/
def stripBoth (p : Char → Bool) (l : List Char) : List Char :=
  ((l.dropWhile p).reverse.dropWhile p).reverse

/-- The character-list pipeline of `werkzeug.utils.secure_filename`. -/
def secureList (l : List Char) : List Char :=
  let l1 := l.filter (fun c => c.toNat ≤ 127)
  let l2 := l1.map (fun c => if c = '/' then ' ' else c)
  let parts := (splitByP pyWs l2).filter (fun q => q ≠ [])
  let l3 := List.intercalate ['_'] parts
  stripBoth stripChar (l3.filter allowedChar)

/-- Embedding of `werkzeug.utils.secure_filename` for ASCII inputs, on a
POSIX host (`os.sep = '/'`, `os.altsep = None`, `os.name != 'nt'`):
NFKD-normalise then ASCII-encode dropping the rest, replace the path
separator by a space, re-join the whitespace-split words with `'_'`, delete
every character outside `[A-Za-z0-9_.-]`, and strip `'.'` and `'_'` from
both ends. -/
def secure_filename (s : String) : String :=
  String.mk (secureList s.data)

/-- Embedding of `pathlib`'s `Path(dir) / name` rendered back to a string:
joining with an empty name contributes nothing. -/
def joinPath (dir name : String) : String :=
  if name = "" then dir else dir ++ "/" ++ name

/-- Embedding of `pathlib.PurePosixPath(s).parts` (for relative paths and
paths without a duplicated root): split on `'/'` and drop empty and `'.'`
components, which pathlib normalises away. -/
def pathParts (s : String) : List String :=
  ((splitByP (fun c => c = '/') s.data).filter
      (fun q => q ≠ [] ∧ q ≠ ['.'])).map String.mk

/-- Embedding of `pathlib.PurePath(s).name`: the last component, or `""`. -/
def pathName (s : String) : String :=
  ((pathParts s).getLast?).getD ""

/-- The prompt extraction common to both request shapes:
`data.get('prompt', '').strip()` for JSON and
`(data.get('prompt') or '').strip()` for the form shape — both read the
field with default `''` and strip it. -/
def parsePrompt : Req → String
  | .json p => pyStrip (p.getD "")
  | .form p _ _ => pyStrip (p.getD "")

/-- The `ref_image` file of the request (`request.files.get('ref_image')`);
`none` in the JSON shape. -/
def refFileOf : Req → Option UploadedFile
  | .json _ => none
  | .form _ r _ => r

/-- The `extra_images` files of the request
(`request.files.getlist('extra_images') or []`); `[]` in the JSON shape. -/
def extraFilesOf : Req → List UploadedFile
  | .json _ => []
  | .form _ _ e => e

/-- Lines 59-63 of the controller: if a primary reference image was provided
(truthy `FileStorage`, i.e. non-empty declared filename), save it into the
workspace under its `secure_filename` and remember its path. -/
def materializeRef (w : World) (temp_dir : String) :
    Option UploadedFile → List Event × Except String (Option String)
  | none => ([], .ok none)
  | some f =>
    if f.filename = "" then ([], .ok none)
    else
      let ref_filename := secure_filename (if f.filename = "" then "ref.png" else f.filename)
      let ref_path := joinPath temp_dir ref_filename
      ([Event.fileSave ref_path f.content],
        match w.save ref_path f.content with
        | .ok _ => .ok (some ref_path)
        | .error e => .error e)

/-- Lines 66-73 of the controller: save every `extra_images` entry with a
non-empty declared filename into the workspace, collecting the stored paths
in input order; entries with an empty filename are skipped silently. -/
def materializeExtras (w : World) (temp_dir : String) :
    List UploadedFile → List Event × Except String (List String)
  | [] => ([], .ok [])
  | f :: rest =>
    if f.filename = "" then materializeExtras w temp_dir rest
    else
      let p := joinPath temp_dir (secure_filename f.filename)
      match w.save p f.content with
      | .error e => ([Event.fileSave p f.content], .error e)
      | .ok _ =>
        let r := materializeExtras w temp_dir rest
        (Event.fileSave p f.content :: r.1,
          match r.2 with
          | .ok ps => .ok (p :: ps)
          | .error e => .error e)

/-- Lines 84-107 of the controller, after `generate_image` has returned:
a falsy image yields the early `503` return; otherwise the image is
persisted, the file name is the last path component of the returned
relative path, a public URL is derived and the session is committed before
the success response. -/
def afterGenerate (w : World) (project_id : String)
    (res : Except String (Option String)) : List Event × Except String Response :=
  match res with
  | .error e => ([], .error e)
  | .ok none => ([], .ok (.error_resp "AI_SERVICE_ERROR" "Failed to generate image" 503))
  | .ok (some image) =>
    match w.save_material_image image project_id with
    | .error e => ([Event.saveMaterial image project_id], .error e)
    | .ok relative_path =>
      let filename := pathName relative_path
      match w.get_file_url project_id "materials" filename with
      | .error e => ([Event.saveMaterial image project_id,
          Event.getUrl project_id "materials" filename], .error e)
      | .ok image_url =>
        match w.commit with
        | .error e => ([Event.saveMaterial image project_id,
            Event.getUrl project_id "materials" filename], .error e)
        | .ok _ => ([Event.saveMaterial image project_id,
            Event.getUrl project_id "materials" filename, Event.commit],
            .ok (.success image_url relative_path))

/-- The body of the inner `try` (lines 57-107): materialize the primary
reference, materialize the extra references, call the synthesis capability
(`additional_ref_images or None` turns the empty list into an absent
argument) and finish with `afterGenerate`.  The second component is
`Except.error e` when an exception escapes the inner `try` body. -/
def runInner (cfg : Config) (w : World) (project_id prompt : String)
    (ref_file : Option UploadedFile) (extra_files : List UploadedFile)
    (temp_dir : String) : List Event × Except String Response :=
  let refR := materializeRef w temp_dir ref_file
  match refR.2 with
  | .error e => (refR.1, .error e)
  | .ok ref_path =>
    let exR := materializeExtras w temp_dir extra_files
    match exR.2 with
    | .error e => (refR.1 ++ exR.1, .error e)
    | .ok additional_ref_images =>
      let additional := if additional_ref_images = [] then none
        else some additional_ref_images
      let t := afterGenerate w project_id
        (w.generate_image prompt ref_path cfg.default_aspect
          cfg.default_resolution additional)
      (refR.1 ++ exR.1 ++ Event.genImage prompt ref_path cfg.default_aspect
          cfg.default_resolution additional :: t.1, t.2)

/-- The handler up to (but not including) the outer `except`: project
lookup, request parsing, prompt validation, `tempfile.mkdtemp`, the inner
`try` body and the unconditional `finally` that removes the workspace.
The second component is `Except.error e` when an exception reaches the
outer `except Exception` clause. -/
def handlerCore (cfg : Config) (w : World) (project_id : String) (req : Req) :
    List Event × Except String Response :=
  if w.projectExists = false then ([], .ok (.not_found_resp "Project"))
  else
    let prompt := parsePrompt req
    if prompt = "" then ([], .ok (.bad_request_resp "prompt is required"))
    else
      let temp_dir := w.tempDirName
      let r := runInner cfg w project_id prompt (refFileOf req)
        (extraFilesOf req) temp_dir
      (Event.mkdtemp temp_dir :: r.1 ++ [Event.rmtree temp_dir], r.2)

/-- The whole handler `generate_material_image(project_id)`: the outer
`except Exception` rolls the session back and answers
`error_response('AI_SERVICE_ERROR', str(e), 503)`. -/
def generate_material_image (cfg : Config) (w : World) (project_id : String)
    (req : Req) : Response × List Event :=
  match handlerCore cfg w project_id req with
  | (evs, .ok resp) => (resp, evs)
  | (evs, .error e) => (.error_resp "AI_SERVICE_ERROR" e 503, evs ++ [.rollback])

/-- The file-write targets recorded in a trace, in order. -/
def savedPaths (tr : List Event) : List String :=
  tr.filterMap fun e => match e with
    | .fileSave p _ => some p
    | _ => none

/-- Content of the last write to `p` in the trace, if any: models that a
later `save` to the same path overwrites the earlier file. -/
def finalContent : List Event → String → Option String
  | [], _ => none
  | e :: tr, p =>
    match finalContent tr p with
    | some c => some c
    | none =>
      match e with
      | Event.fileSave q c => if q = p then some c else none
      | _ => none

/-- The path `p` denotes an entry strictly inside the directory `dir`:
it is `dir` extended by one non-empty component that is not a path
separator run, `'.'` or `'..'`. -/
def strictlyInside (dir p : String) : Prop :=
  ∃ n, p = dir ++ "/" ++ n ∧ n ≠ "" ∧ '/' ∉ n.data ∧ n ≠ "." ∧ n ≠ ".."

/-- A declared file name contains a path-traversal segment. -/
def hasTraversal (s : String) : Bool :=
  (splitByP (fun c => c = '/') s.data).contains ['.', '.']

/-- The workspace path under which a supplied primary reference file is
stored, as a (zero- or one-element) list. -/
def refPart (t : String) : Option UploadedFile → List String
  | none => []
  | some f =>
    if f.filename = "" then []
    else [joinPath t (secure_filename f.filename)]

/-- The workspace paths under which the `extra_images` entries with a
non-empty declared filename are stored, in input order. -/
def extrasPart (t : String) (fs : List UploadedFile) : List String :=
  (fs.filter (fun f => f.filename ≠ "")).map
    (fun f => joinPath t (secure_filename f.filename))

/-- Number of `commit` events in a trace. -/
def commitCount : List Event → Nat
  | [] => 0
  | Event.commit :: tr => commitCount tr + 1
  | _ :: tr => commitCount tr

/-- A concrete configuration used for witnesses. -/
def cfgW : Config :=
  { google_api_key := "key", google_api_base := "base", upload_folder := "/up"
    default_aspect := "16:9", default_resolution := "2K" }

/-- A concrete world on which every collaborator succeeds. -/
def wOk : World :=
  { projectExists := true
    tempDirName := "/up/tmp1"
    save := fun _ _ => .ok ()
    generate_image := fun _ _ _ _ _ => .ok (some "IMG")
    save_material_image := fun _ pid => .ok (pid ++ "/materials/gen1.png")
    get_file_url := fun pid cat nm => .ok ("/files/" ++ pid ++ "/" ++ cat ++ "/" ++ nm)
    commit := .ok () }

/-- The same world with an unknown project id. -/
def wNoProj : World := { wOk with projectExists := false }

/-- The same world whose synthesis capability returns no image. -/
def wNoImg : World := { wOk with generate_image := fun _ _ _ _ _ => .ok none }

/-- The same world whose synthesis capability raises. -/
def wGenRaises : World :=
  { wOk with generate_image := fun _ _ _ _ _ => .error "boom" }

example : secure_filename "../../evil.png" = "evil.png" := by decide
example : secure_filename "../.." = "" := by decide
example : secure_filename "./x.png" = "x.png" := by decide
example : secure_filename "x.png" = "x.png" := by decide
example : hasTraversal "../../evil.png" = true := by decide
example : hasTraversal "evil.png" = false := by decide
example : pathName "p1/materials/gen1.png" = "gen1.png" := by decide
example : pyStrip "  a red cube " = "a red cube" := by decide

/-! Helper lemmas about list stripping and `secure_filename`. -/

theorem dropWhile_eq_cons_head {α : Type} (p : α → Bool) :
    ∀ (l : List α) (c : α) (t : List α), l.dropWhile p = c :: t → p c = false := by
  intro l
  induction l with
  | nil => intro c t h; simp [List.dropWhile] at h
  | cons a l ih =>
    intro c t h
    rw [List.dropWhile_cons] at h
    by_cases hp : p a
    · rw [if_pos hp] at h; exact ih c t h
    · rw [if_neg hp] at h
      injection h with h1 _
      subst h1
      simpa using hp

theorem mem_of_mem_dropWhile' {α : Type} (p : α → Bool) :
    ∀ (l : List α) (a : α), a ∈ l.dropWhile p → a ∈ l := by
  intro l
  induction l with
  | nil => intro a h; simp [List.dropWhile] at h
  | cons b l ih =>
    intro a h
    rw [List.dropWhile_cons] at h
    by_cases hp : p b
    · rw [if_pos hp] at h
      exact List.mem_cons_of_mem b (ih a h)
    · rw [if_neg hp] at h
      exact h

theorem mem_of_mem_stripBoth (p : Char → Bool) (l : List Char) (a : Char)
    (h : a ∈ stripBoth p l) : a ∈ l := by
  unfold stripBoth at h
  rw [List.mem_reverse] at h
  have h2 := mem_of_mem_dropWhile' p _ _ h
  rw [List.mem_reverse] at h2
  exact mem_of_mem_dropWhile' p _ _ h2

theorem stripBoth_getLast_not (p : Char → Bool) (l : List Char) (c : Char)
    (t : List Char) (h : stripBoth p l = t ++ [c]) : p c = false := by
  unfold stripBoth at h
  have h' : (l.dropWhile p).reverse.dropWhile p = c :: t.reverse := by
    have := congrArg List.reverse h
    rw [List.reverse_reverse, List.reverse_append] at this
    simpa using this
  exact dropWhile_eq_cons_head p _ c _ h'

theorem secure_filename_data (d : String) :
    (secure_filename d).data = secureList d.data := rfl

theorem secureList_allowed (l : List Char) :
    ∀ c ∈ secureList l, allowedChar c = true := by
  intro c hc
  unfold secureList at hc
  have h := mem_of_mem_stripBoth stripChar _ _ hc
  exact (List.mem_filter.mp h).2

theorem secure_filename_no_slash (d : String) : '/' ∉ (secure_filename d).data := by
  intro h
  rw [secure_filename_data] at h
  have := secureList_allowed d.data '/' h
  simp [allowedChar] at this

theorem string_eq_of_data {s : String} {l : List Char} (h : s.data = l) :
    s = String.mk l := by
  cases s
  exact congrArg String.mk h

theorem secure_filename_ne_dot (d : String) : secure_filename d ≠ "." := by
  intro h
  have hd : secureList d.data = [] ++ ['.'] := by
    have := congrArg String.data h
    rw [secure_filename_data] at this
    simpa using this
  have := stripBoth_getLast_not stripChar _ '.' [] hd
  simp [stripChar] at this

theorem secure_filename_ne_dotdot (d : String) : secure_filename d ≠ ".." := by
  intro h
  have hd : secureList d.data = ['.'] ++ ['.'] := by
    have := congrArg String.data h
    rw [secure_filename_data] at this
    simpa using this
  have := stripBoth_getLast_not stripChar _ '.' ['.'] hd
  simp [stripChar] at this

theorem strictlyInside_joinPath (t d : String) (h : secure_filename d ≠ "") :
    strictlyInside t (joinPath t (secure_filename d)) := by
  refine ⟨secure_filename d, ?_, h, secure_filename_no_slash d,
    secure_filename_ne_dot d, secure_filename_ne_dotdot d⟩
  unfold joinPath
  rw [if_neg h]

/-! Helper lemmas about `splitByP` and `pathName`. -/

theorem splitByP_cons (p : Char → Bool) (c : Char) (rest : List Char) :
    splitByP p (c :: rest) = match splitByP p rest with
      | [] => [[]]
      | q :: qs => if p c then [] :: q :: qs else (c :: q) :: qs := rfl

theorem splitByP_ne_nil (p : Char → Bool) : ∀ l, splitByP p l ≠ [] := by
  intro l
  cases l with
  | nil => simp [splitByP]
  | cons c rest =>
    rw [splitByP_cons]
    cases h : splitByP p rest with
    | nil => simp
    | cons q qs => by_cases hp : p c <;> simp [hp]

theorem splitByP_append_sep (p : Char → Bool) (sep : Char) (hsep : p sep = true) :
    ∀ (a b : List Char), splitByP p (a ++ sep :: b) = splitByP p a ++ splitByP p b := by
  intro a
  induction a with
  | nil =>
    intro b
    simp only [List.nil_append]
    rw [splitByP_cons]
    cases h : splitByP p b with
    | nil => exact absurd h (splitByP_ne_nil p b)
    | cons q qs => simp [hsep, splitByP]
  | cons c a ih =>
    intro b
    simp only [List.cons_append]
    rw [splitByP_cons, ih b]
    cases h : splitByP p a with
    | nil => exact absurd h (splitByP_ne_nil p a)
    | cons q qs =>
      rw [splitByP_cons, h]
      by_cases hp : p c <;> simp [hp]

theorem splitByP_no_sep (p : Char → Bool) :
    ∀ l : List Char, (∀ c ∈ l, p c = false) → splitByP p l = [l] := by
  intro l
  induction l with
  | nil => intro _; rfl
  | cons c rest ih =>
    intro h
    rw [splitByP_cons, ih (fun x hx => h x (List.mem_cons_of_mem c hx))]
    simp [h c (List.mem_cons_self c rest)]

theorem getLast?_snoc {α : Type} (x : α) : ∀ l : List α, (l ++ [x]).getLast? = some x := by
  intro l
  induction l with
  | nil => rfl
  | cons a l ih =>
    cases l with
    | nil => rfl
    | cons b t =>
      simp only [List.cons_append] at ih ⊢
      rw [List.getLast?_cons_cons]
      exact ih

theorem data_ne_nil_of_ne_empty {s : String} (h : s ≠ "") : s.data ≠ [] := by
  intro hd
  exact h (string_eq_of_data hd)

theorem pathName_append (a nm : String) (h1 : nm ≠ "") (h2 : '/' ∉ nm.data)
    (h3 : nm ≠ ".") : pathName (a ++ "/" ++ nm) = nm := by
  unfold pathName pathParts
  have hdata : (a ++ "/" ++ nm).data = a.data ++ '/' :: nm.data := by
    rw [String.data_append, String.data_append, List.append_assoc]
    rfl
  rw [hdata, splitByP_append_sep _ '/' (by simp) a.data nm.data,
    splitByP_no_sep _ nm.data ?_]
  · rw [List.filter_append]
    have hp1 : nm.data ≠ [] := data_ne_nil_of_ne_empty h1
    have hp2 : nm.data ≠ ['.'] := by
      intro hd
      exact h3 (string_eq_of_data hd)
    rw [show List.filter (fun q => decide (q ≠ [] ∧ q ≠ ['.'])) [nm.data]
        = [nm.data] by simp [List.filter, hp1, hp2]]
    rw [List.map_append]
    simp only [List.map]
    rw [getLast?_snoc]
    exact (Option.getD_some).trans (string_eq_of_data rfl).symm
  · intro c hc
    by_cases h : c = '/'
    · exact absurd (h ▸ hc) h2
    · simp [h]

/-! Classification of the events emitted by each phase of the handler. -/

theorem materializeRef_mem (w : World) (t : String) (rf : Option UploadedFile)
    (e : Event) (h : e ∈ (materializeRef w t rf).1) :
    ∃ nm c, e = .fileSave (joinPath t (secure_filename nm)) c := by
  cases rf with
  | none => simp [materializeRef] at h
  | some f =>
    by_cases hf : f.filename = ""
    · simp [materializeRef, hf] at h
    · simp only [materializeRef, if_neg hf, List.mem_singleton] at h
      subst h
      exact ⟨f.filename, f.content, rfl⟩

theorem materializeExtras_nil (w : World) (t : String) :
    materializeExtras w t [] = ([], .ok []) := rfl

theorem materializeExtras_cons (w : World) (t : String) (f : UploadedFile)
    (rest : List UploadedFile) :
    materializeExtras w t (f :: rest) =
      if f.filename = "" then materializeExtras w t rest
      else
        match w.save (joinPath t (secure_filename f.filename)) f.content with
        | .error e =>
            ([Event.fileSave (joinPath t (secure_filename f.filename)) f.content],
              .error e)
        | .ok _ =>
            (Event.fileSave (joinPath t (secure_filename f.filename)) f.content ::
                (materializeExtras w t rest).1,
              match (materializeExtras w t rest).2 with
              | .ok ps => .ok (joinPath t (secure_filename f.filename) :: ps)
              | .error e => .error e) := rfl

theorem afterGenerate_error (w : World) (pid e : String) :
    afterGenerate w pid (.error e) = ([], .error e) := rfl

theorem afterGenerate_noimage (w : World) (pid : String) :
    afterGenerate w pid (.ok none) =
      ([], .ok (.error_resp "AI_SERVICE_ERROR" "Failed to generate image" 503)) := rfl

theorem afterGenerate_some (w : World) (pid img : String) :
    afterGenerate w pid (.ok (some img)) =
      match w.save_material_image img pid with
      | .error e => ([Event.saveMaterial img pid], .error e)
      | .ok relative_path =>
        match w.get_file_url pid "materials" (pathName relative_path) with
        | .error e => ([Event.saveMaterial img pid,
            Event.getUrl pid "materials" (pathName relative_path)], .error e)
        | .ok image_url =>
          match w.commit with
          | .error e => ([Event.saveMaterial img pid,
              Event.getUrl pid "materials" (pathName relative_path)], .error e)
          | .ok _ => ([Event.saveMaterial img pid,
              Event.getUrl pid "materials" (pathName relative_path), Event.commit],
              .ok (.success image_url relative_path)) := rfl

theorem materializeExtras_mem (w : World) (t : String) :
    ∀ (fs : List UploadedFile) (e : Event), e ∈ (materializeExtras w t fs).1 →
      ∃ nm c, e = .fileSave (joinPath t (secure_filename nm)) c := by
  intro fs
  induction fs with
  | nil => intro e h; simp [materializeExtras_nil] at h
  | cons f rest ih =>
    intro e h
    rw [materializeExtras_cons] at h
    by_cases hf : f.filename = ""
    · rw [if_pos hf] at h
      exact ih e h
    · rw [if_neg hf] at h
      cases hs : w.save (joinPath t (secure_filename f.filename)) f.content with
      | error er =>
        rw [hs] at h
        simp at h
        subst h
        exact ⟨f.filename, f.content, rfl⟩
      | ok u =>
        rw [hs] at h
        simp at h
        rcases h with h | h
        · subst h
          exact ⟨f.filename, f.content, rfl⟩
        · exact ih e h

theorem afterGenerate_mem (w : World) (pid : String)
    (res : Except String (Option String)) (e : Event)
    (h : e ∈ (afterGenerate w pid res).1) :
    (∃ i p, e = .saveMaterial i p) ∨ (∃ x y z, e = .getUrl x y z) ∨
      e = Event.commit := by
  rcases res with er | img
  · rw [afterGenerate_error] at h
    simp at h
  · rcases img with _ | img
    · rw [afterGenerate_noimage] at h
      simp at h
    · rw [afterGenerate_some] at h
      cases hs : w.save_material_image img pid with
      | error er =>
        rw [hs] at h
        simp at h
        subst h
        exact .inl ⟨img, pid, rfl⟩
      | ok rel =>
        rw [hs] at h
        simp only [Except.ok.injEq] at h
        cases hu : w.get_file_url pid "materials" (pathName rel) with
        | error er =>
          rw [hu] at h
          simp at h
          rcases h with h | h
          · subst h; exact .inl ⟨img, pid, rfl⟩
          · subst h; exact .inr (.inl ⟨pid, "materials", pathName rel, rfl⟩)
        | ok url =>
          rw [hu] at h
          cases hc : w.commit with
          | error er =>
            rw [hc] at h
            simp at h
            rcases h with h | h
            · subst h; exact .inl ⟨img, pid, rfl⟩
            · subst h; exact .inr (.inl ⟨pid, "materials", pathName rel, rfl⟩)
          | ok uu =>
            rw [hc] at h
            simp at h
            rcases h with h | h | h
            · subst h; exact .inl ⟨img, pid, rfl⟩
            · subst h; exact .inr (.inl ⟨pid, "materials", pathName rel, rfl⟩)
            · subst h; exact .inr (.inr rfl)

/-! Trace bookkeeping lemmas. -/

theorem savedPaths_append (a b : List Event) :
    savedPaths (a ++ b) = savedPaths a ++ savedPaths b := by
  simp [savedPaths, List.filterMap_append]

theorem savedPaths_cons_other (e : Event) (l : List Event)
    (he : ∀ p c, e ≠ .fileSave p c) : savedPaths (e :: l) = savedPaths l := by
  cases e
  case fileSave p c => exact absurd rfl (he p c)
  all_goals simp [savedPaths, List.filterMap_cons]

theorem savedPaths_eq_nil (l : List Event)
    (h : ∀ e ∈ l, ∀ p c, e ≠ Event.fileSave p c) : savedPaths l = [] := by
  induction l with
  | nil => rfl
  | cons e l ih =>
    rw [savedPaths_cons_other e l (h e (List.mem_cons_self e l))]
    exact ih fun x hx => h x (List.mem_cons_of_mem e hx)

theorem commitCount_append : ∀ a b : List Event,
    commitCount (a ++ b) = commitCount a + commitCount b := by
  intro a b
  induction a with
  | nil => simp [commitCount]
  | cons e a ih =>
    cases e <;> (simp [commitCount, ih]; try omega)

theorem commitCount_eq_zero (l : List Event) (h : Event.commit ∉ l) :
    commitCount l = 0 := by
  induction l with
  | nil => rfl
  | cons e l ih =>
    have h1 : Event.commit ∉ l := fun hm => h (List.mem_cons_of_mem e hm)
    have h2 : e ≠ Event.commit := fun he => h (he ▸ List.mem_cons_self e l)
    cases e
    case commit => exact absurd rfl h2
    all_goals simp [commitCount, ih h1]

/-! Equation lemmas for the phases of the handler. -/

theorem runInner_eq (cfg : Config) (w : World) (pid prompt : String)
    (rf : Option UploadedFile) (fs : List UploadedFile) (t : String) :
    runInner cfg w pid prompt rf fs t =
      match (materializeRef w t rf).2 with
      | .error e => ((materializeRef w t rf).1, .error e)
      | .ok ref_path =>
        match (materializeExtras w t fs).2 with
        | .error e =>
            ((materializeRef w t rf).1 ++ (materializeExtras w t fs).1, .error e)
        | .ok adds =>
            ((materializeRef w t rf).1 ++ (materializeExtras w t fs).1 ++
                Event.genImage prompt ref_path cfg.default_aspect
                  cfg.default_resolution (if adds = [] then none else some adds) ::
                (afterGenerate w pid (w.generate_image prompt ref_path
                  cfg.default_aspect cfg.default_resolution
                  (if adds = [] then none else some adds))).1,
              (afterGenerate w pid (w.generate_image prompt ref_path
                cfg.default_aspect cfg.default_resolution
                (if adds = [] then none else some adds))).2) := rfl

theorem handlerCore_notfound (cfg : Config) (w : World) (pid : String) (req : Req)
    (h : w.projectExists = false) :
    handlerCore cfg w pid req = ([], .ok (.not_found_resp "Project")) := by
  simp [handlerCore, h]

theorem handlerCore_badprompt (cfg : Config) (w : World) (pid : String) (req : Req)
    (h1 : w.projectExists = true) (h2 : parsePrompt req = "") :
    handlerCore cfg w pid req = ([], .ok (.bad_request_resp "prompt is required")) := by
  simp [handlerCore, h1, h2]

theorem handlerCore_run (cfg : Config) (w : World) (pid : String) (req : Req)
    (h1 : w.projectExists = true) (h2 : parsePrompt req ≠ "") :
    handlerCore cfg w pid req =
      (Event.mkdtemp w.tempDirName ::
          (runInner cfg w pid (parsePrompt req) (refFileOf req) (extraFilesOf req)
            w.tempDirName).1 ++ [Event.rmtree w.tempDirName],
        (runInner cfg w pid (parsePrompt req) (refFileOf req) (extraFilesOf req)
          w.tempDirName).2) := by
  simp [handlerCore, h1, h2]

theorem gmi_eq (cfg : Config) (w : World) (pid : String) (req : Req) :
    generate_material_image cfg w pid req =
      match (handlerCore cfg w pid req).2 with
      | .ok resp => (resp, (handlerCore cfg w pid req).1)
      | .error e => (.error_resp "AI_SERVICE_ERROR" e 503,
          (handlerCore cfg w pid req).1 ++ [.rollback]) := by
  unfold generate_material_image
  rcases h : handlerCore cfg w pid req with ⟨evs, r⟩
  cases r <;> simp

theorem runInner_mem (cfg : Config) (w : World) (pid prompt : String)
    (rf : Option UploadedFile) (fs : List UploadedFile) (t : String) (e : Event)
    (h : e ∈ (runInner cfg w pid prompt rf fs t).1) :
    (∃ nm c, e = .fileSave (joinPath t (secure_filename nm)) c) ∨
    (∃ rp add, e = .genImage prompt rp cfg.default_aspect cfg.default_resolution add) ∨
    (∃ i p, e = .saveMaterial i p) ∨ (∃ x y z, e = .getUrl x y z) ∨
    e = Event.commit := by
  rw [runInner_eq] at h
  cases hr : (materializeRef w t rf).2 with
  | error er =>
    rw [hr] at h
    simp only [Except.ok.injEq] at h
    exact .inl (materializeRef_mem w t rf e h)
  | ok ref_path =>
    rw [hr] at h
    simp only [Except.ok.injEq] at h
    cases hx : (materializeExtras w t fs).2 with
    | error er =>
      rw [hx] at h
      simp only [Except.ok.injEq, List.mem_append] at h
      rcases h with h | h
      · exact .inl (materializeRef_mem w t rf e h)
      · exact .inl (materializeExtras_mem w t fs e h)
    | ok adds =>
      rw [hx] at h
      simp only [Except.ok.injEq, List.mem_append, List.mem_cons] at h
      rcases h with (h | h) | h | h
      · exact .inl (materializeRef_mem w t rf e h)
      · exact .inl (materializeExtras_mem w t fs e h)
      · subst h
        exact .inr (.inl ⟨ref_path, _, rfl⟩)
      · rcases afterGenerate_mem w pid _ e h with h1 | h1 | h1
        · exact .inr (.inr (.inl h1))
        · exact .inr (.inr (.inr (.inl h1)))
        · exact .inr (.inr (.inr (.inr h1)))

/-! Inversion lemmas. -/

theorem gmi_of_core_ok (cfg : Config) (w : World) (pid : String) (req : Req)
    (evs : List Event) (resp : Response)
    (h : handlerCore cfg w pid req = (evs, .ok resp)) :
    generate_material_image cfg w pid req = (resp, evs) := by
  unfold generate_material_image
  rw [h]

theorem gmi_of_core_error (cfg : Config) (w : World) (pid : String) (req : Req)
    (evs : List Event) (e : String)
    (h : handlerCore cfg w pid req = (evs, .error e)) :
    generate_material_image cfg w pid req =
      (.error_resp "AI_SERVICE_ERROR" e 503, evs ++ [.rollback]) := by
  unfold generate_material_image
  rw [h]

theorem afterGenerate_ok_inv (w : World) (pid : String)
    (res : Except String (Option String)) (resp : Response)
    (h : (afterGenerate w pid res).2 = .ok resp) :
    (∃ u r, resp = .success u r) ∨
      resp = .error_resp "AI_SERVICE_ERROR" "Failed to generate image" 503 := by
  rcases res with er | img
  · rw [afterGenerate_error] at h
    simp at h
  · rcases img with _ | img
    · rw [afterGenerate_noimage] at h
      simp at h
      exact .inr h.symm
    · rw [afterGenerate_some] at h
      cases hs : w.save_material_image img pid with
      | error er =>
        rw [hs] at h
        simp at h
      | ok rel =>
        rw [hs] at h
        simp only [Except.ok.injEq] at h
        cases hu : w.get_file_url pid "materials" (pathName rel) with
        | error er =>
          rw [hu] at h
          simp at h
        | ok url =>
          rw [hu] at h
          simp only [Except.ok.injEq] at h
          cases hc : w.commit with
          | error er =>
            rw [hc] at h
            simp at h
          | ok uu =>
            rw [hc] at h
            simp at h
            exact .inl ⟨url, rel, h.symm⟩

theorem afterGenerate_success_inv (w : World) (pid : String)
    (res : Except String (Option String)) (u r : String)
    (h : (afterGenerate w pid res).2 = .ok (.success u r)) :
    ∃ img, res = .ok (some img) ∧ w.save_material_image img pid = .ok r ∧
      w.get_file_url pid "materials" (pathName r) = .ok u ∧
      (afterGenerate w pid res).1 = [Event.saveMaterial img pid,
        Event.getUrl pid "materials" (pathName r), Event.commit] := by
  rcases res with er | img
  · rw [afterGenerate_error] at h
    simp at h
  · rcases img with _ | img
    · rw [afterGenerate_noimage] at h
      simp at h
    · rw [afterGenerate_some] at h ⊢
      cases hs : w.save_material_image img pid with
      | error er =>
        rw [hs] at h
        simp at h
      | ok rel =>
        rw [hs] at h
        simp only [Except.ok.injEq] at h
        cases hu : w.get_file_url pid "materials" (pathName rel) with
        | error er =>
          rw [hu] at h
          simp at h
        | ok url =>
          rw [hu] at h
          simp only [Except.ok.injEq] at h
          cases hc : w.commit with
          | error er =>
            rw [hc] at h
            simp at h
          | ok uu =>
            rw [hc] at h
            simp only [Except.ok.injEq, Response.success.injEq] at h
            obtain ⟨hu2, hr2⟩ := h
            subst hu2
            subst hr2
            refine ⟨img, rfl, hs, hu, ?_⟩
            simp [hu]

theorem materializeRef_ok_iff (w : World) (t : String) (rf : Option UploadedFile)
    (rp : Option String) (h : (materializeRef w t rf).2 = .ok rp) :
    rp = none ↔ ∀ f, rf = some f → f.filename = "" := by
  cases rf with
  | none =>
    simp only [materializeRef] at h
    simp at h
    subst h
    simp
  | some f =>
    by_cases hf : f.filename = ""
    · simp only [materializeRef, if_pos hf] at h
      simp at h
      subst h
      simp [hf]
    · simp only [materializeRef, if_neg hf] at h
      cases hs : w.save (joinPath t (secure_filename f.filename)) f.content with
      | error er =>
        rw [hs] at h
        simp at h
      | ok uu =>
        rw [hs] at h
        simp at h
        subst h
        simp [hf]

theorem runInner_ok_inv (cfg : Config) (w : World) (pid prompt : String)
    (rf : Option UploadedFile) (fs : List UploadedFile) (t : String)
    (resp : Response) (h : (runInner cfg w pid prompt rf fs t).2 = .ok resp) :
    (∃ u r, resp = .success u r) ∨
      resp = .error_resp "AI_SERVICE_ERROR" "Failed to generate image" 503 := by
  rw [runInner_eq] at h
  cases hr : (materializeRef w t rf).2 with
  | error er =>
    rw [hr] at h
    simp at h
  | ok ref_path =>
    rw [hr] at h
    simp only [Except.ok.injEq] at h
    cases hx : (materializeExtras w t fs).2 with
    | error er =>
      rw [hx] at h
      simp at h
    | ok adds =>
      rw [hx] at h
      simp only [Except.ok.injEq] at h
      exact afterGenerate_ok_inv w pid _ resp h

/-! Behaviour when every file write succeeds. -/

theorem savedPaths_map (l : List UploadedFile) (g : UploadedFile → String) :
    savedPaths (l.map (fun f => Event.fileSave (g f) f.content)) = l.map g := by
  induction l with
  | nil => rfl
  | cons f l ih => simp [savedPaths, List.filterMap_cons] at ih ⊢; exact ih

theorem materializeRef_saves_ok (w : World) (t : String)
    (hsave : ∀ p c, w.save p c = .ok ()) (rf : Option UploadedFile) :
    materializeRef w t rf =
      ((refPart t rf).map (fun p => Event.fileSave p
          ((rf.map UploadedFile.content).getD "")),
        .ok ((refPart t rf).getLast?) ) := by
  cases rf with
  | none => rfl
  | some f =>
    by_cases hf : f.filename = ""
    · simp [materializeRef, refPart, hf]
    · simp [materializeRef, refPart, hf, hsave]

theorem materializeExtras_saves_ok (w : World) (t : String)
    (hsave : ∀ p c, w.save p c = .ok ()) :
    ∀ fs : List UploadedFile,
      materializeExtras w t fs =
        ((fs.filter (fun f => f.filename ≠ "")).map
            (fun f => Event.fileSave (joinPath t (secure_filename f.filename))
              f.content),
          .ok (extrasPart t fs)) := by
  intro fs
  induction fs with
  | nil => simp [materializeExtras_nil, extrasPart]
  | cons f rest ih =>
    rw [materializeExtras_cons]
    by_cases hf : f.filename = ""
    · rw [if_pos hf, ih]
      simp [extrasPart, hf]
    · rw [if_neg hf, hsave, ih]
      simp [extrasPart, hf]

theorem runInner_success_inv (cfg : Config) (w : World) (pid prompt : String)
    (rf : Option UploadedFile) (fs : List UploadedFile) (t : String) (u r : String)
    (h : (runInner cfg w pid prompt rf fs t).2 = .ok (.success u r)) :
    ∃ img, w.save_material_image img pid = .ok r ∧
      w.get_file_url pid "materials" (pathName r) = .ok u ∧
      commitCount (runInner cfg w pid prompt rf fs t).1 = 1 := by
  rw [runInner_eq] at h ⊢
  cases hr : (materializeRef w t rf).2 with
  | error er =>
    rw [hr] at h
    simp at h
  | ok ref_path =>
    rw [hr] at h
    simp only [Except.ok.injEq] at h
    cases hx : (materializeExtras w t fs).2 with
    | error er =>
      rw [hx] at h
      simp at h
    | ok adds =>
      rw [hx] at h
      simp only [Except.ok.injEq] at h
      obtain ⟨img, hres, hsave2, hurl, hevs⟩ := afterGenerate_success_inv w pid _ u r h
      refine ⟨img, hsave2, hurl, ?_⟩
      have hA : commitCount (materializeRef w t rf).1 = 0 := by
        apply commitCount_eq_zero
        intro hm
        rcases materializeRef_mem w t rf _ hm with ⟨nm, c, hc2⟩
        simp at hc2
      have hB : commitCount (materializeExtras w t fs).1 = 0 := by
        apply commitCount_eq_zero
        intro hm
        rcases materializeExtras_mem w t fs _ hm with ⟨nm, c, hc2⟩
        simp at hc2
      simp only [hevs, commitCount_append, hA, hB, commitCount]

theorem runInner_genImage_mem (cfg : Config) (w : World) (pid prompt : String)
    (rf : Option UploadedFile) (fs : List UploadedFile) (t : String)
    (rp : Option String) (adds : List String)
    (hr : (materializeRef w t rf).2 = .ok rp)
    (hx : (materializeExtras w t fs).2 = .ok adds) :
    Event.genImage prompt rp cfg.default_aspect cfg.default_resolution
      (if adds = [] then none else some adds) ∈
        (runInner cfg w pid prompt rf fs t).1 := by
  rw [runInner_eq, hr, hx]
  simp

theorem runInner_genImage_inv (cfg : Config) (w : World) (pid prompt : String)
    (rf : Option UploadedFile) (fs : List UploadedFile) (t : String)
    (p : String) (rp : Option String) (a res2 : String) (add : Option (List String))
    (h : Event.genImage p rp a res2 add ∈ (runInner cfg w pid prompt rf fs t).1) :
    p = prompt ∧ (materializeRef w t rf).2 = .ok rp := by
  rw [runInner_eq] at h
  cases hr : (materializeRef w t rf).2 with
  | error er =>
    rw [hr] at h
    simp only [Except.ok.injEq] at h
    rcases materializeRef_mem w t rf _ h with ⟨nm, c, hc2⟩
    simp at hc2
  | ok ref_path =>
    rw [hr] at h
    simp only [Except.ok.injEq] at h
    cases hx : (materializeExtras w t fs).2 with
    | error er =>
      rw [hx] at h
      simp only [Except.ok.injEq, List.mem_append] at h
      rcases h with h | h
      · rcases materializeRef_mem w t rf _ h with ⟨nm, c, hc2⟩
        simp at hc2
      · rcases materializeExtras_mem w t fs _ h with ⟨nm, c, hc2⟩
        simp at hc2
    | ok adds =>
      rw [hx] at h
      simp only [Except.ok.injEq, List.mem_append, List.mem_cons] at h
      rcases h with (h | h) | h | h
      · rcases materializeRef_mem w t rf _ h with ⟨nm, c, hc2⟩
        simp at hc2
      · rcases materializeExtras_mem w t fs _ h with ⟨nm, c, hc2⟩
        simp at hc2
      · simp only [Event.genImage.injEq] at h
        obtain ⟨h1, h2, h3, h4, h5⟩ := h
        refine ⟨h1, ?_⟩
        rw [h2]
      · rcases afterGenerate_mem w pid _ _ h with ⟨i, pp, hc2⟩ | ⟨x, y, z, hc2⟩ | hc2 <;>
          simp at hc2

/-! Shape of the full trace. -/

theorem gmi_trace (cfg : Config) (w : World) (pid : String) (req : Req) :
    (generate_material_image cfg w pid req).2 = [] ∨
    ∃ tail, (generate_material_image cfg w pid req).2 =
        Event.mkdtemp w.tempDirName ::
          ((runInner cfg w pid (parsePrompt req) (refFileOf req) (extraFilesOf req)
              w.tempDirName).1 ++ [Event.rmtree w.tempDirName] ++ tail) ∧
      (tail = [] ∨ tail = [Event.rollback]) ∧
      w.projectExists = true ∧ parsePrompt req ≠ "" := by
  by_cases hp : w.projectExists = true
  · by_cases hq : parsePrompt req = ""
    · rw [gmi_of_core_ok cfg w pid req [] _ (handlerCore_badprompt cfg w pid req hp hq)]
      exact .inl rfl
    · rcases hres : (runInner cfg w pid (parsePrompt req) (refFileOf req)
          (extraFilesOf req) w.tempDirName).2 with e | resp
      · have hc2 : handlerCore cfg w pid req =
            (Event.mkdtemp w.tempDirName ::
              (runInner cfg w pid (parsePrompt req) (refFileOf req) (extraFilesOf req)
                w.tempDirName).1 ++ [Event.rmtree w.tempDirName], .error e) := by
          rw [handlerCore_run cfg w pid req hp hq, hres]
        rw [gmi_of_core_error cfg w pid req _ _ hc2]
        refine .inr ⟨[Event.rollback], ?_, .inr rfl, hp, hq⟩
        simp
      · have hc2 : handlerCore cfg w pid req =
            (Event.mkdtemp w.tempDirName ::
              (runInner cfg w pid (parsePrompt req) (refFileOf req) (extraFilesOf req)
                w.tempDirName).1 ++ [Event.rmtree w.tempDirName], .ok resp) := by
          rw [handlerCore_run cfg w pid req hp hq, hres]
        rw [gmi_of_core_ok cfg w pid req _ _ hc2]
        refine .inr ⟨[], ?_, .inl rfl, hp, hq⟩
        simp
  · rw [Bool.not_eq_true] at hp
    rw [gmi_of_core_ok cfg w pid req [] _ (handlerCore_notfound cfg w pid req hp)]
    exact .inl rfl

/-- Claim C1: whenever the handler run creates the temporary workspace
directory (an `mkdtemp` event appears in its trace), the same directory is
removed before the handler returns (an `rmtree` event for the same
directory is also in the trace), on every exit path: success, the
no-image 503 return, and any exception during materialization, synthesis
or persistence. -/
theorem c1_workspace_cleanup (cfg : Config) (w : World) (pid : String) (req : Req)
    (d : String) (h : Event.mkdtemp d ∈ (generate_material_image cfg w pid req).2) :
    Event.rmtree d ∈ (generate_material_image cfg w pid req).2 := by
  rcases gmi_trace cfg w pid req with htr | ⟨tail, htr, htail, -, -⟩
  · rw [htr] at h
    simp at h
  · rw [htr] at h ⊢
    simp only [List.mem_cons, List.mem_append] at h ⊢
    rcases h with h | (h | h) | h
    · cases h
      refine .inr (.inl (.inr ?_))
      simp
    · rcases runInner_mem cfg w pid _ _ _ _ _ h with
        ⟨nm, c, hc2⟩ | ⟨rp, add, hc2⟩ | ⟨i, pp, hc2⟩ | ⟨x, y, z, hc2⟩ | hc2 <;>
        simp at hc2
    · simp at h
    · rcases htail with ht | ht <;> rw [ht] at h <;> simp at h

/-- Witness for C1 at a concrete successful run. -/
theorem c1_workspace_cleanup_witness :
    Event.mkdtemp "/up/tmp1" ∈
        (generate_material_image cfgW wOk "p1" (.json (some "a red cube"))).2 ∧
      Event.rmtree "/up/tmp1" ∈
        (generate_material_image cfgW wOk "p1" (.json (some "a red cube"))).2 :=
  ⟨by decide, c1_workspace_cleanup cfgW wOk "p1" (.json (some "a red cube"))
    "/up/tmp1" (by decide)⟩

/-- Counterexample to claim C2 as stated: a request whose prompt is
whitespace-only but whose project id is unknown is answered 404
(`not_found`), not 400 with "prompt is required" — the project lookup
happens before prompt validation. -/
theorem c2_counterexample :
    parsePrompt (.json (some "   ")) = "" ∧
    (generate_material_image cfgW wNoProj "p1" (.json (some "   "))).1 =
      .not_found_resp "Project" ∧
    (generate_material_image cfgW wNoProj "p1" (.json (some "   "))).1 ≠
      .bad_request_resp "prompt is required" := by
  refine ⟨by decide, by decide, by decide⟩

/-- Claim C2 as amended: for every request whose prompt is empty or
whitespace-only after trimming, if the project id resolves then the
handler answers 400 `bad_request("prompt is required")`; and in all cases
(project found or not) no temporary workspace directory is ever created:
the trace is empty. -/
theorem c2_empty_prompt (cfg : Config) (w : World) (pid : String) (req : Req)
    (hp : parsePrompt req = "") :
    (w.projectExists = true →
      (generate_material_image cfg w pid req).1 = .bad_request_resp "prompt is required" ∧
      ((generate_material_image cfg w pid req).1).status = 400) ∧
    (generate_material_image cfg w pid req).2 = [] := by
  by_cases h : w.projectExists = true
  · rw [gmi_of_core_ok cfg w pid req [] _ (handlerCore_badprompt cfg w pid req h hp)]
    exact ⟨fun _ => ⟨rfl, rfl⟩, rfl⟩
  · have hf : w.projectExists = false := by
      rw [Bool.not_eq_true] at h
      exact h
    rw [gmi_of_core_ok cfg w pid req [] _ (handlerCore_notfound cfg w pid req hf)]
    exact ⟨fun hc => absurd hc h, rfl⟩

/-- Witness for the amended C2 at a concrete whitespace-only prompt. -/
theorem c2_empty_prompt_witness :
    (generate_material_image cfgW wOk "p1" (.form (some " ") none [])).1 =
        .bad_request_resp "prompt is required" ∧
      (generate_material_image cfgW wOk "p1" (.form (some " ") none [])).2 = [] :=
  ⟨((c2_empty_prompt cfgW wOk "p1" (.form (some " ") none []) (by decide)).1
      (by decide)).1,
    (c2_empty_prompt cfgW wOk "p1" (.form (some " ") none []) (by decide)).2⟩

/-- Claim C3: for every request whose project id does not resolve, the
handler answers 404 `not_found("Project")` regardless of the prompt, and
no temporary workspace directory is ever created: the trace is empty. -/
theorem c3_unknown_project (cfg : Config) (w : World) (pid : String) (req : Req)
    (h : w.projectExists = false) :
    (generate_material_image cfg w pid req).1 = .not_found_resp "Project" ∧
    ((generate_material_image cfg w pid req).1).status = 404 ∧
    (generate_material_image cfg w pid req).2 = [] := by
  rw [gmi_of_core_ok cfg w pid req [] _ (handlerCore_notfound cfg w pid req h)]
  exact ⟨rfl, rfl, rfl⟩

/-- Witness for C3 with a perfectly valid prompt. -/
theorem c3_unknown_project_witness :
    (generate_material_image cfgW wNoProj "p1" (.json (some "a red cube"))).1 =
        .not_found_resp "Project" ∧
      (generate_material_image cfgW wNoProj "p1" (.json (some "a red cube"))).2 = [] :=
  ⟨(c3_unknown_project cfgW wNoProj "p1" (.json (some "a red cube")) (by decide)).1,
    (c3_unknown_project cfgW wNoProj "p1" (.json (some "a red cube")) (by decide)).2.2⟩

/-- Counterexample to claim C5 as stated: the declared name `"../.."`
consists of path-traversal segments, `secure_filename` sanitizes it to the
empty string, and the resulting target path is the workspace directory
itself — which does not lie strictly inside the workspace. -/
theorem c5_counterexample :
    hasTraversal "../.." = true ∧
    savedPaths (generate_material_image cfgW wOk "p1"
        (.form (some "cube") none [⟨"../..", "x"⟩])).2 = ["/up/tmp1"] ∧
    ¬ strictlyInside "/up/tmp1" "/up/tmp1" := by
  refine ⟨by decide, by decide, ?_⟩
  rintro ⟨n, hn, hne, -, -, -⟩
  have hlen := congrArg String.length hn
  rw [String.length_append, String.length_append] at hlen
  have hnn : 0 < n.length := by
    cases hn0 : n.data with
    | nil => exact absurd (string_eq_of_data hn0) hne
    | cons a l => simp [String.length, hn0]
  omega

/-- Claim C5 as amended: every file write performed by the handler targets
`workspace/(secure_filename name)` for the file's declared `name`; whenever
the sanitized name is non-empty this path lies strictly inside the
workspace directory; a name may sanitize to the empty string (e.g.
`"../.."`), in which case the target path is the workspace directory
itself — in no case does a write escape the workspace. -/
theorem c5_no_escape (cfg : Config) (w : World) (pid : String) (req : Req)
    (p c : String)
    (h : Event.fileSave p c ∈ (generate_material_image cfg w pid req).2) :
    ∃ nm, p = joinPath w.tempDirName (secure_filename nm) ∧
      (secure_filename nm = "" → p = w.tempDirName) ∧
      (secure_filename nm ≠ "" → strictlyInside w.tempDirName p) := by
  rcases gmi_trace cfg w pid req with htr | ⟨tail, htr, htail, -, -⟩
  · rw [htr] at h
    simp at h
  · rw [htr] at h
    simp only [List.mem_cons, List.mem_append] at h
    rcases h with h | (h | h) | h
    · simp at h
    · rcases runInner_mem cfg w pid _ _ _ _ _ h with
        ⟨nm, c2, hc2⟩ | ⟨rp, add, hc2⟩ | ⟨i, pp, hc2⟩ | ⟨x, y, z, hc2⟩ | hc2
      · simp only [Event.fileSave.injEq] at hc2
        obtain ⟨hp2, -⟩ := hc2
        refine ⟨nm, hp2, ?_, ?_⟩
        · intro hz
          rw [hp2, hz]
          simp [joinPath]
        · intro hz
          rw [hp2]
          exact strictlyInside_joinPath w.tempDirName nm hz
      all_goals simp at hc2
    · simp at h
    · rcases htail with ht | ht <;> rw [ht] at h <;> simp at h

/-- Witness for the amended C5: a traversal name is stored at a sanitized
path strictly inside the workspace. -/
theorem c5_no_escape_witness :
    (∃ nm, "/up/tmp1/evil.png" = joinPath "/up/tmp1" (secure_filename nm) ∧
      (secure_filename nm = "" → "/up/tmp1/evil.png" = "/up/tmp1") ∧
      (secure_filename nm ≠ "" → strictlyInside "/up/tmp1" "/up/tmp1/evil.png")) :=
  c5_no_escape cfgW wOk "p1" (.form (some "cube") none [⟨"../../evil.png", "x"⟩])
    "/up/tmp1/evil.png" "x" (by decide)

/-- Claim C7: whenever the synthesis capability is invoked, its prompt
argument is exactly the trimmed user prompt, that prompt is non-empty, and
the primary-reference path argument is absent precisely when no valid
primary reference file (present with a non-empty declared filename) was
supplied. -/
theorem c7_synthesis_args (cfg : Config) (w : World) (pid : String) (req : Req)
    (p : String) (rp : Option String) (a res2 : String) (add : Option (List String))
    (h : Event.genImage p rp a res2 add ∈ (generate_material_image cfg w pid req).2) :
    p = parsePrompt req ∧ p ≠ "" ∧
    a = cfg.default_aspect ∧ res2 = cfg.default_resolution ∧
    (rp = none ↔ ∀ f, refFileOf req = some f → f.filename = "") := by
  rcases gmi_trace cfg w pid req with htr | ⟨tail, htr, htail, -, hprompt⟩
  · rw [htr] at h
    simp at h
  · rw [htr] at h
    simp only [List.mem_cons, List.mem_append] at h
    have hgen : Event.genImage p rp a res2 add ∈
        (runInner cfg w pid (parsePrompt req) (refFileOf req) (extraFilesOf req)
          w.tempDirName).1 := by
      rcases h with h | (h | h) | h
      · simp at h
      · exact h
      · simp at h
      · rcases htail with ht | ht <;> rw [ht] at h <;> simp at h
    obtain ⟨h1, h2⟩ := runInner_genImage_inv cfg w pid _ _ _ _ p rp a res2 add hgen
    refine ⟨h1, h1 ▸ hprompt, ?_, ?_, materializeRef_ok_iff w _ _ rp h2⟩
    · rcases runInner_mem cfg w pid _ _ _ _ _ hgen with
        ⟨nm, c2, hc2⟩ | ⟨rp2, add2, hc2⟩ | ⟨i, pp, hc2⟩ | ⟨x, y, z, hc2⟩ | hc2
      · simp at hc2
      · simp only [Event.genImage.injEq] at hc2
        exact hc2.2.2.1
      · simp at hc2
      · simp at hc2
      · simp at hc2
    · rcases runInner_mem cfg w pid _ _ _ _ _ hgen with
        ⟨nm, c2, hc2⟩ | ⟨rp2, add2, hc2⟩ | ⟨i, pp, hc2⟩ | ⟨x, y, z, hc2⟩ | hc2
      · simp at hc2
      · simp only [Event.genImage.injEq] at hc2
        exact hc2.2.2.2.1
      · simp at hc2
      · simp at hc2
      · simp at hc2

/-- Witness for C7 at a run with a primary reference file. -/
theorem c7_synthesis_args_witness :
    "cube" = parsePrompt (.form (some "cube") (some ⟨"r.png", "R"⟩) []) ∧
    "cube" ≠ "" ∧ "16:9" = cfgW.default_aspect ∧ "2K" = cfgW.default_resolution ∧
    (some "/up/tmp1/r.png" = (none : Option String) ↔
      ∀ f, refFileOf (.form (some "cube") (some ⟨"r.png", "R"⟩) []) = some f →
        f.filename = "") :=
  c7_synthesis_args cfgW wOk "p1" (.form (some "cube") (some ⟨"r.png", "R"⟩) [])
    "cube" (some "/up/tmp1/r.png") "16:9" "2K" none (by decide)

theorem handlerCore_ok_inv (cfg : Config) (w : World) (pid : String) (req : Req)
    (evs : List Event) (resp : Response)
    (h : handlerCore cfg w pid req = (evs, .ok resp)) :
    resp = .not_found_resp "Project" ∨ resp = .bad_request_resp "prompt is required" ∨
    (runInner cfg w pid (parsePrompt req) (refFileOf req) (extraFilesOf req)
      w.tempDirName).2 = .ok resp := by
  by_cases hp : w.projectExists = true
  · by_cases hq : parsePrompt req = ""
    · have h2 := (handlerCore_badprompt cfg w pid req hp hq).symm.trans h
      simp only [Prod.mk.injEq, Except.ok.injEq] at h2
      exact .inr (.inl h2.2.symm)
    · have h2 := (handlerCore_run cfg w pid req hp hq).symm.trans h
      simp only [Prod.mk.injEq] at h2
      exact .inr (.inr h2.2)
  · rw [Bool.not_eq_true] at hp
    have h2 := (handlerCore_notfound cfg w pid req hp).symm.trans h
    simp only [Prod.mk.injEq, Except.ok.injEq] at h2
    exact .inl h2.2.symm

/-- Counterexample to claim C4 as stated: when the synthesis capability
returns no image, the handler answers 503 "Failed to generate image" by an
early `return` (no exception is raised), so the session is never rolled
back on that path — yet the claim asserts a rollback for every
ServiceError outcome. -/
theorem c4_counterexample :
    (generate_material_image cfgW wNoImg "p1" (.json (some "a red cube"))).1 =
      .error_resp "AI_SERVICE_ERROR" "Failed to generate image" 503 ∧
    Event.rollback ∉
      (generate_material_image cfgW wNoImg "p1" (.json (some "a red cube"))).2 := by
  exact ⟨by decide, by decide⟩

/-- Claim C4 as amended: every exception that reaches the outer handler
(synthesis or storage capability raising, or any other exception) is
answered 503 with the exception's message and the session is rolled back;
a 503-class `error_resp` produced without a rollback is exactly the
no-image early return, with code `AI_SERVICE_ERROR`, message
"Failed to generate image" and status 503. -/
theorem c4_service_errors (cfg : Config) (w : World) (pid : String) (req : Req) :
    (∀ evs e, handlerCore cfg w pid req = (evs, .error e) →
      (generate_material_image cfg w pid req).1 = .error_resp "AI_SERVICE_ERROR" e 503 ∧
      Event.rollback ∈ (generate_material_image cfg w pid req).2) ∧
    (∀ c m s, (generate_material_image cfg w pid req).1 = .error_resp c m s →
      Event.rollback ∉ (generate_material_image cfg w pid req).2 →
      c = "AI_SERVICE_ERROR" ∧ m = "Failed to generate image" ∧ s = 503) := by
  constructor
  · intro evs e hc
    rw [gmi_of_core_error cfg w pid req evs e hc]
    exact ⟨rfl, by simp⟩
  · intro c m s hresp hnr
    rcases hco : handlerCore cfg w pid req with ⟨evs, r0⟩
    cases r0 with
    | error e =>
      rw [gmi_of_core_error cfg w pid req evs e hco] at hnr
      simp at hnr
    | ok resp =>
      rw [gmi_of_core_ok cfg w pid req evs resp hco] at hresp
      rcases handlerCore_ok_inv cfg w pid req evs resp hco with h | h | h
      · subst h
        simp at hresp
      · subst h
        simp at hresp
      · rcases runInner_ok_inv cfg w pid _ _ _ _ resp h with ⟨u, r, h2⟩ | h2
        · subst h2
          simp at hresp
        · subst h2
          simp only [Response.error_resp.injEq] at hresp
          exact ⟨hresp.1.symm, hresp.2.1.symm, hresp.2.2.symm⟩

/-- Witness for the amended C4: a raising synthesis capability yields a
503 with the exception's message and a rollback. -/
theorem c4_service_errors_witness :
    (generate_material_image cfgW wGenRaises "p1" (.json (some "a red cube"))).1 =
        .error_resp "AI_SERVICE_ERROR" "boom" 503 ∧
      Event.rollback ∈
        (generate_material_image cfgW wGenRaises "p1" (.json (some "a red cube"))).2 :=
  (c4_service_errors cfgW wGenRaises "p1" (.json (some "a red cube"))).1
    [Event.mkdtemp "/up/tmp1",
      Event.genImage "a red cube" none "16:9" "2K" none,
      Event.rmtree "/up/tmp1"] "boom" rfl

theorem commitCount_cons_other (e : Event) (l : List Event) (he : e ≠ Event.commit) :
    commitCount (e :: l) = commitCount l := by
  cases e
  case commit => exact absurd rfl he
  all_goals rfl

/-- Claim C9: the session is committed exactly once on the successful path
(and never rolled back there), and is rolled back whenever an exception
reaches the outer handler, which then answers the 503 error response. -/
theorem c9_transaction_boundary (cfg : Config) (w : World) (pid : String) (req : Req) :
    (∀ u r, (generate_material_image cfg w pid req).1 = .success u r →
      commitCount (generate_material_image cfg w pid req).2 = 1 ∧
      Event.rollback ∉ (generate_material_image cfg w pid req).2) ∧
    (∀ evs e, handlerCore cfg w pid req = (evs, .error e) →
      Event.rollback ∈ (generate_material_image cfg w pid req).2 ∧
      (generate_material_image cfg w pid req).1 =
        .error_resp "AI_SERVICE_ERROR" e 503) := by
  constructor
  · intro u r hresp
    rcases hco : handlerCore cfg w pid req with ⟨evs, r0⟩
    cases r0 with
    | error e =>
      rw [gmi_of_core_error cfg w pid req evs e hco] at hresp
      simp at hresp
    | ok resp =>
      have hg := gmi_of_core_ok cfg w pid req evs resp hco
      rw [hg] at hresp
      simp only [Prod.fst] at hresp
      by_cases hp : w.projectExists = true
      · by_cases hq : parsePrompt req = ""
        · have h2 := (handlerCore_badprompt cfg w pid req hp hq).symm.trans hco
          simp only [Prod.mk.injEq, Except.ok.injEq] at h2
          rw [← h2.2] at hresp
          simp at hresp
        · have h2 := (handlerCore_run cfg w pid req hp hq).symm.trans hco
          simp only [Prod.mk.injEq] at h2
          obtain ⟨hevs, hrun⟩ := h2
          rw [hresp] at hrun
          obtain ⟨img, -, -, hcc⟩ := runInner_success_inv cfg w pid _ _ _ _ u r hrun
          subst hevs
          have htr2 : (generate_material_image cfg w pid req).2 =
              Event.mkdtemp w.tempDirName ::
                ((runInner cfg w pid (parsePrompt req) (refFileOf req)
                    (extraFilesOf req) w.tempDirName).1 ++
                  [Event.rmtree w.tempDirName]) := by
            rw [hg]
            rfl
          constructor
          · rw [htr2, commitCount_cons_other (Event.mkdtemp w.tempDirName) _ (by simp),
              commitCount_append, hcc]
            rfl
          · rw [htr2]
            intro hm
            simp at hm
            rcases runInner_mem cfg w pid _ _ _ _ _ hm with
              ⟨nm, c2, hc2⟩ | ⟨rp, add, hc2⟩ | ⟨i, pp, hc2⟩ | ⟨x, y, z, hc2⟩ | hc2 <;>
              simp at hc2
      · rw [Bool.not_eq_true] at hp
        have h2 := (handlerCore_notfound cfg w pid req hp).symm.trans hco
        simp only [Prod.mk.injEq, Except.ok.injEq] at h2
        rw [← h2.2] at hresp
        simp at hresp
  · intro evs e hc
    rw [gmi_of_core_error cfg w pid req evs e hc]
    exact ⟨by simp, rfl⟩

/-- Witness for C9 at a concrete successful run. -/
theorem c9_transaction_boundary_witness :
    commitCount (generate_material_image cfgW wOk "p1" (.json (some "a red cube"))).2 = 1 ∧
      Event.rollback ∉
        (generate_material_image cfgW wOk "p1" (.json (some "a red cube"))).2 :=
  (c9_transaction_boundary cfgW wOk "p1" (.json (some "a red cube"))).1
    "/files/p1/materials/gen1.png" "p1/materials/gen1.png" (by decide)

/-- Claim C8: for every successful run — assuming the storage capability's
contract, modelled from the spec because `FileService` is not under `src/`:
`save_material_image` returns a relative path of the form
`{projectId}/materials/{generatedFileName}` with a non-empty, slash-free
file name — the returned `relative_path` matches that pattern, its final
path segment is the file name, and `image_url` is exactly the value the
storage capability derives from `(projectId, "materials", fileName)`. -/
theorem c8_success_shape (cfg : Config) (w : World) (pid : String) (req : Req)
    (u r : String)
    (hresp : (generate_material_image cfg w pid req).1 = .success u r)
    (hcontract : ∀ img rel, w.save_material_image img pid = .ok rel →
      ∃ nm, rel = pid ++ "/materials/" ++ nm ∧ nm ≠ "" ∧ '/' ∉ nm.data ∧ nm ≠ ".") :
    ∃ nm, r = pid ++ "/materials/" ++ nm ∧ pathName r = nm ∧
      w.get_file_url pid "materials" nm = .ok u := by
  rcases hco : handlerCore cfg w pid req with ⟨evs, r0⟩
  cases r0 with
  | error e =>
    rw [gmi_of_core_error cfg w pid req evs e hco] at hresp
    simp at hresp
  | ok resp =>
    rw [gmi_of_core_ok cfg w pid req evs resp hco] at hresp
    simp only [Prod.fst] at hresp
    rcases handlerCore_ok_inv cfg w pid req evs resp hco with h | h | h
    · rw [h] at hresp
      simp at hresp
    · rw [h] at hresp
      simp at hresp
    · rw [hresp] at h
      obtain ⟨img, hsave2, hurl, -⟩ := runInner_success_inv cfg w pid _ _ _ _ u r h
      obtain ⟨nm, hshape, hne, hns, hnd⟩ := hcontract img r hsave2
      have hassoc : pid ++ "/materials/" ++ nm = (pid ++ "/materials") ++ "/" ++ nm := by
        have h1 : ("/materials/" : String) = "/materials" ++ "/" := by decide
        rw [h1, ← String.append_assoc]
      have hpn : pathName r = nm := by
        rw [hshape, hassoc]
        exact pathName_append (pid ++ "/materials") nm hne hns hnd
      rw [hpn] at hurl
      exact ⟨nm, hshape, hpn, hurl⟩

/-- Witness for C8 at a concrete successful run. -/
theorem c8_success_shape_witness :
    ∃ nm, "p1/materials/gen1.png" = "p1" ++ "/materials/" ++ nm ∧
      pathName "p1/materials/gen1.png" = nm ∧
      wOk.get_file_url "p1" "materials" nm = .ok "/files/p1/materials/gen1.png" :=
  c8_success_shape cfgW wOk "p1" (.json (some "a red cube"))
    "/files/p1/materials/gen1.png" "p1/materials/gen1.png" (by decide)
    (fun img rel h => by
      injection h with h2
      exact ⟨"gen1.png", by rw [← h2]; decide, by decide, by decide, by decide⟩)

/-! Infrastructure for C6 and C10. -/

theorem gmi_trace_run (cfg : Config) (w : World) (pid : String) (req : Req)
    (hp : w.projectExists = true) (hq : parsePrompt req ≠ "") :
    ∃ tail, (generate_material_image cfg w pid req).2 =
        Event.mkdtemp w.tempDirName ::
          ((runInner cfg w pid (parsePrompt req) (refFileOf req) (extraFilesOf req)
              w.tempDirName).1 ++ [Event.rmtree w.tempDirName] ++ tail) ∧
      (tail = [] ∨ tail = [Event.rollback]) := by
  rcases hres : (runInner cfg w pid (parsePrompt req) (refFileOf req)
      (extraFilesOf req) w.tempDirName).2 with e | resp
  · have hc2 : handlerCore cfg w pid req =
        (Event.mkdtemp w.tempDirName ::
          (runInner cfg w pid (parsePrompt req) (refFileOf req) (extraFilesOf req)
            w.tempDirName).1 ++ [Event.rmtree w.tempDirName], .error e) := by
      rw [handlerCore_run cfg w pid req hp hq, hres]
    rw [gmi_of_core_error cfg w pid req _ _ hc2]
    exact ⟨[Event.rollback], by simp, .inr rfl⟩
  · have hc2 : handlerCore cfg w pid req =
        (Event.mkdtemp w.tempDirName ::
          (runInner cfg w pid (parsePrompt req) (refFileOf req) (extraFilesOf req)
            w.tempDirName).1 ++ [Event.rmtree w.tempDirName], .ok resp) := by
      rw [handlerCore_run cfg w pid req hp hq, hres]
    rw [gmi_of_core_ok cfg w pid req _ _ hc2]
    exact ⟨[], by simp, .inl rfl⟩

theorem runInner_evs_ok (cfg : Config) (w : World) (pid prompt : String)
    (rf : Option UploadedFile) (fs : List UploadedFile) (t : String)
    (hsave : ∀ p c, w.save p c = .ok ()) :
    (runInner cfg w pid prompt rf fs t).1 =
      (refPart t rf).map (fun p => Event.fileSave p
          ((rf.map UploadedFile.content).getD "")) ++
      (fs.filter (fun f => f.filename ≠ "")).map
          (fun f => Event.fileSave (joinPath t (secure_filename f.filename))
            f.content) ++
      Event.genImage prompt ((refPart t rf).getLast?) cfg.default_aspect
          cfg.default_resolution
          (if extrasPart t fs = [] then none else some (extrasPart t fs)) ::
      (afterGenerate w pid (w.generate_image prompt ((refPart t rf).getLast?)
          cfg.default_aspect cfg.default_resolution
          (if extrasPart t fs = [] then none else some (extrasPart t fs)))).1 := by
  rw [runInner_eq, materializeRef_saves_ok w t hsave rf,
    materializeExtras_saves_ok w t hsave fs]

theorem runInner_res_ok (cfg : Config) (w : World) (pid prompt : String)
    (rf : Option UploadedFile) (fs : List UploadedFile) (t : String)
    (hsave : ∀ p c, w.save p c = .ok ()) :
    (runInner cfg w pid prompt rf fs t).2 =
      (afterGenerate w pid (w.generate_image prompt ((refPart t rf).getLast?)
          cfg.default_aspect cfg.default_resolution
          (if extrasPart t fs = [] then none else some (extrasPart t fs)))).2 := by
  rw [runInner_eq, materializeRef_saves_ok w t hsave rf,
    materializeExtras_saves_ok w t hsave fs]

theorem savedPaths_mkdtemp (d : String) (tr : List Event) :
    savedPaths (Event.mkdtemp d :: tr) = savedPaths tr := rfl

theorem savedPaths_map_paths (ps : List String) (c0 : String) :
    savedPaths (ps.map (fun p => Event.fileSave p c0)) = ps := by
  induction ps with
  | nil => rfl
  | cons p ps ih =>
    simp only [List.map_cons]
    simp only [savedPaths, List.filterMap_cons] at ih ⊢
    rw [ih]

theorem afterGenerate_savedPaths (w : World) (pid : String)
    (res : Except String (Option String)) :
    savedPaths (afterGenerate w pid res).1 = [] := by
  apply savedPaths_eq_nil
  intro e he p c heq
  rcases afterGenerate_mem w pid res e he with ⟨i, pp, h2⟩ | ⟨x, y, z, h2⟩ | h2 <;>
    (subst heq; simp at h2)

theorem savedPaths_runInner_ok (cfg : Config) (w : World) (pid prompt : String)
    (rf : Option UploadedFile) (fs : List UploadedFile) (t : String)
    (hsave : ∀ p c, w.save p c = .ok ()) :
    savedPaths (runInner cfg w pid prompt rf fs t).1 =
      refPart t rf ++ extrasPart t fs := by
  rw [runInner_evs_ok cfg w pid prompt rf fs t hsave,
    savedPaths_append, savedPaths_append, savedPaths_map_paths,
    savedPaths_cons_other _ _ (fun p c h => by simp at h),
    afterGenerate_savedPaths]
  rw [show savedPaths ((fs.filter (fun f => f.filename ≠ "")).map
      (fun f => Event.fileSave (joinPath t (secure_filename f.filename)) f.content)) =
      extrasPart t fs from ?_]
  · simp
  · rw [extrasPart]
    induction (fs.filter (fun f => f.filename ≠ "")) with
    | nil => rfl
    | cons f l ih =>
      simp only [List.map_cons]
      simp only [savedPaths, List.filterMap_cons] at ih ⊢
      rw [ih]

/-- Claim C6: in a multipart request, exactly the `extra_images` entries
with a non-empty declared filename are materialized (after the optional
primary reference), their stored paths are collected in input order, empty
entries are skipped silently, and the synthesis capability receives `none`
(an absent value) rather than an empty list when no extra file was kept.
Stated for every request reaching the main path with all file writes
succeeding. -/
theorem c6_extras (cfg : Config) (w : World) (pid : String)
    (pf : Option String) (rf : Option UploadedFile) (fs : List UploadedFile)
    (hproj : w.projectExists = true)
    (hprompt : parsePrompt (.form pf rf fs) ≠ "")
    (hsave : ∀ p c, w.save p c = .ok ()) :
    savedPaths (generate_material_image cfg w pid (.form pf rf fs)).2 =
        refPart w.tempDirName rf ++ extrasPart w.tempDirName fs ∧
      Event.genImage (parsePrompt (.form pf rf fs))
          ((refPart w.tempDirName rf).getLast?) cfg.default_aspect
          cfg.default_resolution
          (if extrasPart w.tempDirName fs = [] then none
            else some (extrasPart w.tempDirName fs)) ∈
        (generate_material_image cfg w pid (.form pf rf fs)).2 := by
  obtain ⟨tail, htr, htail⟩ := gmi_trace_run cfg w pid (.form pf rf fs) hproj hprompt
  simp only [refFileOf, extraFilesOf] at htr
  constructor
  · rw [htr, savedPaths_mkdtemp, savedPaths_append, savedPaths_append,
      savedPaths_runInner_ok cfg w pid _ rf fs w.tempDirName hsave]
    have h2 : savedPaths tail = [] := by
      rcases htail with ht | ht <;> rw [ht] <;> rfl
    rw [h2]
    simp [savedPaths]
  · rw [htr]
    simp only [List.mem_cons, List.mem_append]
    refine .inr (.inl (.inl ?_))
    have hr : (materializeRef w w.tempDirName rf).2 =
        .ok ((refPart w.tempDirName rf).getLast?) := by
      rw [materializeRef_saves_ok w w.tempDirName hsave rf]
    have hx : (materializeExtras w w.tempDirName fs).2 =
        .ok (extrasPart w.tempDirName fs) := by
      rw [materializeExtras_saves_ok w w.tempDirName hsave fs]
    exact runInner_genImage_mem cfg w pid (parsePrompt (.form pf rf fs)) rf fs
      w.tempDirName _ _ hr hx

/-- Witness for C6: two named extra files and one empty-named entry. -/
theorem c6_extras_witness :
    savedPaths (generate_material_image cfgW wOk "p1"
        (.form (some "cube") none [⟨"a.png", "A"⟩, ⟨"", "E"⟩, ⟨"b.png", "B"⟩])).2 =
        refPart wOk.tempDirName none ++
          extrasPart wOk.tempDirName [⟨"a.png", "A"⟩, ⟨"", "E"⟩, ⟨"b.png", "B"⟩] ∧
      Event.genImage (parsePrompt (.form (some "cube") none
            [⟨"a.png", "A"⟩, ⟨"", "E"⟩, ⟨"b.png", "B"⟩]))
          ((refPart wOk.tempDirName none).getLast?) cfgW.default_aspect
          cfgW.default_resolution
          (if extrasPart wOk.tempDirName [⟨"a.png", "A"⟩, ⟨"", "E"⟩, ⟨"b.png", "B"⟩] = []
            then none
            else some (extrasPart wOk.tempDirName
              [⟨"a.png", "A"⟩, ⟨"", "E"⟩, ⟨"b.png", "B"⟩])) ∈
        (generate_material_image cfgW wOk "p1"
          (.form (some "cube") none [⟨"a.png", "A"⟩, ⟨"", "E"⟩, ⟨"b.png", "B"⟩])).2 :=
  c6_extras cfgW wOk "p1" (some "cube") none
    [⟨"a.png", "A"⟩, ⟨"", "E"⟩, ⟨"b.png", "B"⟩]
    (by decide) (by decide) (fun p c => rfl)

/-! Lemmas about the last-writer-wins content map. -/

theorem finalContent_cons_eq (e : Event) (tr : List Event) (p : String) :
    finalContent (e :: tr) p =
      match finalContent tr p with
      | some c => some c
      | none =>
        match e with
        | Event.fileSave q c => if q = p then some c else none
        | _ => none := rfl

theorem finalContent_cons_other (e : Event) (tr : List Event) (p : String)
    (he : ∀ q c, e ≠ Event.fileSave q c) :
    finalContent (e :: tr) p = finalContent tr p := by
  rw [finalContent_cons_eq]
  cases hf : finalContent tr p with
  | some c => rfl
  | none =>
    cases e
    case fileSave q c => exact absurd rfl (he q c)
    all_goals rfl

theorem finalContent_no_writes (p : String) :
    ∀ l : List Event, (∀ e ∈ l, ∀ q c, e ≠ Event.fileSave q c) →
      finalContent l p = none := by
  intro l
  induction l with
  | nil => intro _; rfl
  | cons e l ih =>
    intro h
    rw [finalContent_cons_other e l p (h e (List.mem_cons_self e l))]
    exact ih fun x hx => h x (List.mem_cons_of_mem e hx)

theorem finalContent_append_none (p : String) (b : List Event)
    (hb : finalContent b p = none) :
    ∀ a : List Event, finalContent (a ++ b) p = finalContent a p := by
  intro a
  induction a with
  | nil => simpa using hb
  | cons e a ih =>
    have h1 : finalContent (e :: a ++ b) p =
        match finalContent (a ++ b) p with
        | some c => some c
        | none =>
          match e with
          | Event.fileSave q c => if q = p then some c else none
          | _ => none := rfl
    rw [h1, finalContent_cons_eq, ih]

/-- Claim C10: when two uploaded reference files sanitize to the same base
name, both are written to the same workspace path in order — the later
write overwriting the earlier file — and the list of stored paths passed
to the synthesis capability contains the duplicate path twice. -/
theorem c10_duplicate_names (cfg : Config) (w : World) (pid : String)
    (pf : Option String) (f g : UploadedFile)
    (hproj : w.projectExists = true)
    (hprompt : parsePrompt (.form pf none [f, g]) ≠ "")
    (hsave : ∀ p c, w.save p c = .ok ())
    (hf : f.filename ≠ "") (hg : g.filename ≠ "")
    (heq : secure_filename f.filename = secure_filename g.filename) :
    savedPaths (generate_material_image cfg w pid (.form pf none [f, g])).2 =
        [joinPath w.tempDirName (secure_filename f.filename),
          joinPath w.tempDirName (secure_filename f.filename)] ∧
      finalContent (generate_material_image cfg w pid (.form pf none [f, g])).2
          (joinPath w.tempDirName (secure_filename f.filename)) = some g.content ∧
      Event.genImage (parsePrompt (.form pf none [f, g])) none cfg.default_aspect
          cfg.default_resolution
          (some [joinPath w.tempDirName (secure_filename f.filename),
            joinPath w.tempDirName (secure_filename f.filename)]) ∈
        (generate_material_image cfg w pid (.form pf none [f, g])).2 := by
  have hex : extrasPart w.tempDirName [f, g] =
      [joinPath w.tempDirName (secure_filename f.filename),
        joinPath w.tempDirName (secure_filename f.filename)] := by
    simp [extrasPart, hf, hg, ← heq]
  obtain ⟨tail, htr, htail⟩ :=
    gmi_trace_run cfg w pid (.form pf none [f, g]) hproj hprompt
  simp only [refFileOf, extraFilesOf] at htr
  have htail_fc : finalContent tail
      (joinPath w.tempDirName (secure_filename f.filename)) = none := by
    rcases htail with ht | ht <;> rw [ht] <;> rfl
  refine ⟨?_, ?_, ?_⟩
  · rw [htr, savedPaths_mkdtemp, savedPaths_append, savedPaths_append,
      savedPaths_runInner_ok cfg w pid _ none [f, g] w.tempDirName hsave, hex]
    have h2 : savedPaths tail = [] := by
      rcases htail with ht | ht <;> rw [ht] <;> rfl
    rw [h2]
    simp [savedPaths, refPart]
  · rw [htr]
    rw [finalContent_cons_other _ _ _ (fun q c h => by simp at h)]
    rw [finalContent_append_none _ tail htail_fc]
    rw [finalContent_append_none _ [Event.rmtree w.tempDirName] (by rfl)]
    rw [runInner_evs_ok cfg w pid _ none [f, g] w.tempDirName hsave]
    have hW : (([f, g].filter (fun x => x.filename ≠ "")).map
        (fun x => Event.fileSave (joinPath w.tempDirName
          (secure_filename x.filename)) x.content)) =
        [Event.fileSave (joinPath w.tempDirName (secure_filename f.filename))
            f.content,
          Event.fileSave (joinPath w.tempDirName (secure_filename f.filename))
            g.content] := by
      simp [hf, hg, ← heq]
    rw [hW]
    rw [finalContent_append_none _ _ ?hbafter]
    case hbafter =>
      rw [finalContent_cons_other _ _ _ (fun q c h => by simp at h)]
      apply finalContent_no_writes
      intro e he q c heq2
      rcases afterGenerate_mem w pid _ e he with ⟨i, pp, h2⟩ | ⟨x, y, z, h2⟩ | h2 <;>
        (subst heq2; simp at h2)
    simp [finalContent, refPart]
  · rw [htr]
    simp only [List.mem_cons, List.mem_append]
    refine .inr (.inl (.inl ?_))
    have hr : (materializeRef w w.tempDirName (none : Option UploadedFile)).2 =
        .ok none := by
      rw [materializeRef_saves_ok w w.tempDirName hsave none]
      simp [refPart]
    have hx : (materializeExtras w w.tempDirName [f, g]).2 =
        .ok [joinPath w.tempDirName (secure_filename f.filename),
          joinPath w.tempDirName (secure_filename f.filename)] := by
      rw [materializeExtras_saves_ok w w.tempDirName hsave [f, g], hex]
    have hmem := runInner_genImage_mem cfg w pid
      (parsePrompt (.form pf none [f, g])) none [f, g] w.tempDirName none
      [joinPath w.tempDirName (secure_filename f.filename),
        joinPath w.tempDirName (secure_filename f.filename)] hr hx
    rw [if_neg (by simp)] at hmem
    exact hmem

/-- Witness for C10: the names `x.png` and `./x.png` both sanitize to
`x.png`. -/
theorem c10_duplicate_names_witness :
    savedPaths (generate_material_image cfgW wOk "p1"
        (.form (some "cube") none [⟨"x.png", "A"⟩, ⟨"./x.png", "B"⟩])).2 =
        [joinPath wOk.tempDirName (secure_filename "x.png"),
          joinPath wOk.tempDirName (secure_filename "x.png")] ∧
      finalContent (generate_material_image cfgW wOk "p1"
          (.form (some "cube") none [⟨"x.png", "A"⟩, ⟨"./x.png", "B"⟩])).2
          (joinPath wOk.tempDirName (secure_filename "x.png")) = some "B" ∧
      Event.genImage (parsePrompt (.form (some "cube") none
            [⟨"x.png", "A"⟩, ⟨"./x.png", "B"⟩])) none cfgW.default_aspect
          cfgW.default_resolution
          (some [joinPath wOk.tempDirName (secure_filename "x.png"),
            joinPath wOk.tempDirName (secure_filename "x.png")]) ∈
        (generate_material_image cfgW wOk "p1"
          (.form (some "cube") none [⟨"x.png", "A"⟩, ⟨"./x.png", "B"⟩])).2 :=
  c10_duplicate_names cfgW wOk "p1" (some "cube") ⟨"x.png", "A"⟩ ⟨"./x.png", "B"⟩
    (by decide) (by decide) (fun p c => rfl) (by decide) (by decide) (by decide)
